import Mathlib

/-!
Shallow embedding of the bulk-loading pipeline of `src/db/load/load_all_numbers.py`
(with the sequential driver `src/db/load/load_all_to_db.py` where noted), and
proofs about the behaviour its specification describes: the dedup merge into the
main table, the retry/backoff loop of `load_csv_file_direct`, the on-disk load
state (`load_state` / `save_state`) and the run loop of `load_all_files`.
-/

namespace MD5Loader

/-- One staged record: `(md5_hex, phone_number)`, as read from a CSV row. -/
abbrev Row := String × String

/-- One dedup merge of the staged rows into the main table, modelling the single
SQL statement `INSERT INTO md5_phone_map_bin (md5_hash, phone_number) SELECT
decode(md5_hex, 'hex'), phone_number FROM staging_md5 ON CONFLICT (md5_hash) DO
NOTHING` (load_all_numbers.py lines 249-254).  Rows are processed in order; a
row whose key is already present in the table (including rows inserted earlier
by the same statement) is skipped silently and not counted.  Returns the new
table together with `cur.rowcount` (line 255), the number of rows actually
inserted.  `decode(md5_hex, 'hex')` is modelled as the identity on the hex text,
on which it is injective for the fixed-case hex the generator emits. -/
def mergeInto : List Row → List Row → List Row × Nat
  | store, [] => (store, 0)
  | store, (k, v) :: rest =>
    if (store.lookup k).isSome then mergeInto store rest
    else ((mergeInto (store ++ [(k, v)]) rest).1, (mergeInto (store ++ [(k, v)]) rest).2 + 1)

theorem lookup_append_some {k v : String} :
    ∀ (l1 l2 : List Row), l1.lookup k = some v → (l1 ++ l2).lookup k = some v := by
  intro l1 l2 h
  induction l1 with
  | nil => simp [List.lookup] at h
  | cons a t ih =>
    rcases a with ⟨a1, a2⟩
    simp only [List.cons_append, List.lookup] at h ⊢
    by_cases hk : (k == a1) = true
    · simpa [hk] using h
    · simp only [hk] at h ⊢
      exact ih h

theorem lookup_append_none {k : String} :
    ∀ (l1 l2 : List Row), (l1 ++ l2).lookup k = none → l1.lookup k = none := by
  intro l1 l2 h
  induction l1 with
  | nil => simp [List.lookup]
  | cons a t ih =>
    rcases a with ⟨a1, a2⟩
    simp only [List.cons_append, List.lookup] at h ⊢
    by_cases hk : (k == a1) = true
    · simp [hk] at h
    · simp only [hk] at h ⊢
      exact ih h

theorem mergeInto_preserves {k v : String} :
    ∀ (staging store : List Row), store.lookup k = some v →
      (mergeInto store staging).1.lookup k = some v := by
  intro staging
  induction staging with
  | nil => intro store h; simpa [mergeInto] using h
  | cons p rest ih =>
    intro store h
    rcases p with ⟨pk, pv⟩
    by_cases hc : (store.lookup pk).isSome = true
    · simpa [mergeInto, hc] using ih store h
    · simp only [mergeInto, hc, if_false]
      exact ih (store ++ [(pk, pv)]) (lookup_append_some store [(pk, pv)] h)

theorem mergeInto_count_le :
    ∀ (staging store : List Row), (mergeInto store staging).2 ≤ staging.length := by
  intro staging
  induction staging with
  | nil => intro store; simp [mergeInto]
  | cons p rest ih =>
    intro store
    rcases p with ⟨pk, pv⟩
    by_cases hc : (store.lookup pk).isSome = true
    · simp only [mergeInto, hc, if_true, List.length_cons]
      exact le_trans (ih store) (Nat.le_succ _)
    · simp only [mergeInto, hc, if_false, List.length_cons]
      exact Nat.succ_le_succ (ih (store ++ [(pk, pv)]))

theorem mergeInto_count_eq :
    ∀ (staging store : List Row), (mergeInto store staging).2 = staging.length →
      ∀ p ∈ staging, store.lookup p.1 = none := by
  intro staging
  induction staging with
  | nil => intro store _ p hp; simp at hp
  | cons q rest ih =>
    intro store h p hp
    rcases q with ⟨qk, qv⟩
    by_cases hc : (store.lookup qk).isSome = true
    · exfalso
      simp only [mergeInto, hc, if_true, List.length_cons] at h
      have := mergeInto_count_le rest store
      omega
    · have h' : (mergeInto (store ++ [(qk, qv)]) rest).2 + 1 = rest.length + 1 := by
        simpa [mergeInto, hc] using h
      have hrest : (mergeInto (store ++ [(qk, qv)]) rest).2 = rest.length := by omega
      rcases List.mem_cons.mp hp with hq | hr
      · subst hq
        exact Option.not_isSome_iff_eq_none.mp hc
      · have := ih (store ++ [(qk, qv)]) hrest p hr
        exact lookup_append_none store [(qk, qv)] this

/-- C3: merging staged records skips a row whose key already exists as a no-op
(the store's value for that key is unchanged and the merge over the rest is
unaffected), the skipped row is not counted in `rows_inserted`, and
`rows_inserted` is at most `rows_read`, with equality only if no staged key
collided with a pre-existing row. -/
theorem c3_dedup_merge (store staging : List Row) :
    (∀ k v, store.lookup k = some v → (mergeInto store staging).1.lookup k = some v) ∧
    (mergeInto store staging).2 ≤ staging.length ∧
    ((mergeInto store staging).2 = staging.length → ∀ p ∈ staging, store.lookup p.1 = none) ∧
    (∀ k v rest, (store.lookup k).isSome = true →
      mergeInto store ((k, v) :: rest) = mergeInto store rest) := by
  refine ⟨fun k v h => mergeInto_preserves staging store h,
          mergeInto_count_le staging store,
          mergeInto_count_eq staging store,
          fun k v rest h => ?_⟩
  simp [mergeInto, h]

theorem c3_dedup_merge_witness :
    (([("k1", "a")] : List Row).lookup "k1" = some "a" ∧
      (mergeInto [("k1", "a")] [("k1", "b"), ("k2", "c")]).1.lookup "k1" = some "a") ∧
    (mergeInto [("k1", "a")] [("k1", "b"), ("k2", "c")]).2 = 1 ∧
    mergeInto [("k1", "a")] [("k1", "b"), ("k2", "c")] = mergeInto [("k1", "a")] [("k2", "c")] :=
  ⟨⟨by decide, (c3_dedup_merge [("k1", "a")] [("k1", "b"), ("k2", "c")]).1 "k1" "a" (by decide)⟩,
   by decide,
   (c3_dedup_merge [("k1", "a")] [("k1", "b"), ("k2", "c")]).2.2.2 "k1" "b" [("k2", "c")]
     (by decide)⟩

/-- Checks whether `needle` starts the character list `hay`. -/
def listStartsWith : List Char → List Char → Bool
  | [], _ => true
  | _ :: _, [] => false
  | a :: as, b :: bs => a == b && listStartsWith as bs

/-- Checks whether `needle` occurs as a contiguous substring of `hay`, modelling
the Python membership test `needle in hay` on strings. -/
def hasSubstring (needle : List Char) : List Char → Bool
  | [] => needle.isEmpty
  | c :: rest => listStartsWith needle (c :: rest) || hasSubstring needle rest

/-- Python `str.lower()`, on the character list of the string. -/
def lowerChars (s : List Char) : List Char :=
  s.map Char.toLower

/-- Exceptions that reach the handlers of `load_csv_file_direct`
(load_all_numbers.py lines 272-303), with the message text `str(e)` where the
handler inspects it. -/
inductive PgErr
  | queryCanceled
  | transactionRollback (msg : String)
  | operationalError (msg : String)
  | otherException (msg : String)

/-- Result of one body execution of the retry loop: the attempt either returns
successfully or raises an exception. -/
inductive AttemptResult
  | success
  | failure (e : PgErr)

/-- Test `'deadlock' in error_str or 'lock' in error_str` on
`error_str = str(e).lower()` (load_all_numbers.py lines 284-285). -/
def lockRelated (msg : String) : Bool :=
  hasSubstring "deadlock".toList (lowerChars msg.toList) ||
  hasSubstring "lock".toList (lowerChars msg.toList)

/-- On which exceptions the handler sleeps with exponential backoff before
retrying: `QueryCanceledError` (lock timeout, lines 272-281), a
rollback/operational error whose message mentions a lock or deadlock (lines
283-294), and any other exception (lines 296-303).  A rollback/operational
error whose message mentions neither falls through its handler without a
`continue` or `return`, so the loop just proceeds to the next iteration with no
sleep. -/
def backoffClass : PgErr → Bool
  | .queryCanceled => true
  | .transactionRollback msg => lockRelated msg
  | .operationalError msg => lockRelated msg
  | .otherException _ => true

/-- Observable events of one `load_csv_file_direct` call: each attempt of the
loop body (with whether it returned successfully) and each `time.sleep` with
its duration in milliseconds. -/
inductive RetryEv
  | attempt (ok : Bool)
  | sleep (ms : Nat)
deriving DecidableEq

/-- Value of `max_retries` (load_all_numbers.py line 186). -/
def max_retries : Nat := 3

/-- Value of `retry_delay` (line 187), 0.1 s expressed in milliseconds. -/
def retry_delay_ms : Nat := 100

/-- The loop `for attempt in range(max_retries)` of `load_csv_file_direct`
(lines 189-305), with the outcome of the `attempt`-indexed body execution given
by `out`.  `fuel` is the number of loop iterations left.  Returns the event
trace and the boolean return value of the function: `True` on a successful body
(line 270), `False` from an exhausted handler (lines 281, 294, 303) or from
falling off the loop (line 305).  The sleep before the next attempt is
`retry_delay * (2 ** attempt)` (lines 275, 288, 299). -/
def retryLoop (out : Nat → AttemptResult) : Nat → Nat → List RetryEv × Bool
  | 0, _ => ([], false)
  | fuel + 1, a =>
    match out a with
    | .success => ([.attempt true], true)
    | .failure e =>
      if backoffClass e then
        if a < max_retries - 1 then
          ((RetryEv.attempt false) :: (RetryEv.sleep (retry_delay_ms * 2 ^ a)) ::
            (retryLoop out fuel (a + 1)).1, (retryLoop out fuel (a + 1)).2)
        else ([.attempt false], false)
      else
        ((RetryEv.attempt false) :: (retryLoop out fuel (a + 1)).1,
          (retryLoop out fuel (a + 1)).2)

/-- One call of `load_csv_file_direct`, given the per-attempt outcomes. -/
def load_csv_file_direct (out : Nat → AttemptResult) : List RetryEv × Bool :=
  retryLoop out max_retries 0

/-- Number of attempts made, read off the event trace. -/
def numAttempts (t : List RetryEv) : Nat :=
  t.countP (fun e => match e with | .attempt _ => true | _ => false)

/-- The backoff delays slept, in order, read off the event trace. -/
def sleeps (t : List RetryEv) : List Nat :=
  t.filterMap (fun e => match e with | .sleep w => some w | _ => none)

/-- The delay pattern the spec claims for every retried failure: one sleep
before each attempt after the first, of `base_delay * 2 ^ (k - 2)` before
attempt `k`. -/
def claimedBackoffPattern (t : List RetryEv) : Prop :=
  sleeps t = (List.range (numAttempts t - 1)).map (fun i => retry_delay_ms * 2 ^ i)

theorem numAttempts_retryLoop_le (out : Nat → AttemptResult) :
    ∀ fuel a, numAttempts (retryLoop out fuel a).1 ≤ fuel := by
  intro fuel
  induction fuel with
  | zero => intro a; simp [retryLoop, numAttempts]
  | succ n ih =>
    intro a
    have hrec := ih (a + 1)
    simp only [numAttempts] at hrec ⊢
    cases h : out a with
    | success => simp [retryLoop, h]
    | failure e =>
      by_cases hb : backoffClass e = true
      · by_cases ha : a < max_retries - 1
        · simp [retryLoop, h, hb, ha, List.countP_cons]
          omega
        · simp [retryLoop, h, hb, ha, List.countP_cons]
      · simp [retryLoop, h, hb, List.countP_cons]
        omega

theorem retryLoop_attempts_pos (out : Nat → AttemptResult) (fuel a : Nat) :
    1 ≤ numAttempts (retryLoop out (fuel + 1) a).1 := by
  cases h : out a with
  | success => simp [retryLoop, h, numAttempts]
  | failure e =>
    by_cases hb : backoffClass e = true
    · by_cases ha : a < max_retries - 1
      · simp [retryLoop, h, hb, ha, numAttempts, List.countP_cons]
      · simp [retryLoop, h, hb, ha, numAttempts]
    · simp [retryLoop, h, hb, numAttempts, List.countP_cons]

theorem retryLoop_sleeps_pattern (out : Nat → AttemptResult)
    (h : ∀ i e, out i = .failure e → backoffClass e = true) :
    ∀ fuel a, max_retries ≤ a + fuel →
      sleeps (retryLoop out fuel a).1 =
        (List.range (numAttempts (retryLoop out fuel a).1 - 1)).map
          (fun i => retry_delay_ms * 2 ^ (a + i)) := by
  intro fuel
  induction fuel with
  | zero =>
    intro a _
    simp [retryLoop, sleeps, numAttempts]
  | succ n ih =>
    intro a hinv
    cases h0 : out a with
    | success => simp [retryLoop, h0, sleeps, numAttempts]
    | failure e =>
      have hb := h a e h0
      by_cases ha : a < max_retries - 1
      · obtain ⟨m, rfl⟩ : ∃ m, n = m + 1 := by
          refine ⟨n - 1, ?_⟩
          simp only [max_retries] at ha hinv
          omega
        have hrec := ih (a + 1) (by simp only [max_retries] at hinv ⊢; omega)
        have hpos := retryLoop_attempts_pos out m (a + 1)
        have hstep : (retryLoop out (m + 1 + 1) a).1 =
            RetryEv.attempt false :: RetryEv.sleep (retry_delay_ms * 2 ^ a) ::
              (retryLoop out (m + 1) (a + 1)).1 := by
          simp [retryLoop, h0, hb, ha]
        rw [hstep]
        have hsl : sleeps (RetryEv.attempt false :: RetryEv.sleep (retry_delay_ms * 2 ^ a) ::
            (retryLoop out (m + 1) (a + 1)).1)
            = retry_delay_ms * 2 ^ a :: sleeps (retryLoop out (m + 1) (a + 1)).1 := by
          simp [sleeps]
        have hat : numAttempts (RetryEv.attempt false :: RetryEv.sleep (retry_delay_ms * 2 ^ a) ::
            (retryLoop out (m + 1) (a + 1)).1)
            = numAttempts (retryLoop out (m + 1) (a + 1)).1 + 1 := by
          simp [numAttempts, List.countP_cons]
        rw [hsl, hat, Nat.add_sub_cancel]
        have hk : numAttempts (retryLoop out (m + 1) (a + 1)).1 =
            (numAttempts (retryLoop out (m + 1) (a + 1)).1 - 1) + 1 := by omega
        rw [hk, List.range_succ_eq_map, List.map_cons, List.map_map]
        have hfun : ((fun i => retry_delay_ms * 2 ^ (a + i)) ∘ Nat.succ) =
            (fun i => retry_delay_ms * 2 ^ (a + 1 + i)) := by
          funext i
          simp only [Function.comp_apply]
          have : a + Nat.succ i = a + 1 + i := by omega
          rw [this]
        rw [hfun, ← hrec]
        simp
      · simp [retryLoop, h0, hb, ha, sleeps, numAttempts]

/-- The scenario of the spec's retry-then-success test: the first two attempts
raise a lock timeout (transient contention), the third succeeds. -/
def twoContentionThenSuccess : Nat → AttemptResult :=
  fun a => if a < 2 then .failure .queryCanceled else .success

/-- The scenario of the spec's retry-exhaustion test: every attempt raises a
lock timeout. -/
def alwaysContention : Nat → AttemptResult :=
  fun _ => .failure .queryCanceled

/-- A lost-connection run: every attempt raises an `OperationalError` whose
message mentions neither lock nor deadlock, so its handler falls through and
the loop retries immediately, with no backoff sleep. -/
def connLost : Nat → AttemptResult :=
  fun _ => .failure (.operationalError "server closed the connection unexpectedly")

theorem twoContention_backoffClass :
    ∀ i e, twoContentionThenSuccess i = AttemptResult.failure e → backoffClass e = true := by
  intro i e hi
  by_cases h2 : i < 2
  · simp only [twoContentionThenSuccess, h2, if_true, AttemptResult.failure.injEq] at hi
    rw [← hi]
    rfl
  · simp [twoContentionThenSuccess, h2] at hi

/-- C1 (amended): every `load_csv_file_direct` call makes at most 3 attempts;
when every failure is of the backoff class (lock timeout, lock/deadlock-tagged
rollback or operational error, or a generic exception), the delay before
attempt `k` is `100 * 2 ^ (k - 2)` ms and no delay follows a success or the
final failure; the two contention scenarios behave exactly as the spec states
(3 attempts, delays 100 ms and 200 ms, final result success resp. failure).
A rollback/operational error whose message mentions neither lock nor deadlock
is instead retried immediately, with no delay. -/
theorem c1_retry_backoff (out : Nat → AttemptResult)
    (h : ∀ i e, out i = AttemptResult.failure e → backoffClass e = true) :
    (∀ g : Nat → AttemptResult, numAttempts (load_csv_file_direct g).1 ≤ 3) ∧
    claimedBackoffPattern (load_csv_file_direct out).1 ∧
    load_csv_file_direct twoContentionThenSuccess =
      ([.attempt false, .sleep 100, .attempt false, .sleep 200, .attempt true], true) ∧
    load_csv_file_direct alwaysContention =
      ([.attempt false, .sleep 100, .attempt false, .sleep 200, .attempt false], false) := by
  refine ⟨fun g => numAttempts_retryLoop_le g max_retries 0, ?_, by decide, by decide⟩
  have := retryLoop_sleeps_pattern out h max_retries 0 (by omega)
  simpa [claimedBackoffPattern, load_csv_file_direct] using this

theorem c1_retry_backoff_witness :
    (∀ i e, twoContentionThenSuccess i = AttemptResult.failure e → backoffClass e = true) ∧
    ((∀ g : Nat → AttemptResult, numAttempts (load_csv_file_direct g).1 ≤ 3) ∧
      claimedBackoffPattern (load_csv_file_direct twoContentionThenSuccess).1 ∧
      load_csv_file_direct twoContentionThenSuccess =
        ([.attempt false, .sleep 100, .attempt false, .sleep 200, .attempt true], true) ∧
      load_csv_file_direct alwaysContention =
        ([.attempt false, .sleep 100, .attempt false, .sleep 200, .attempt false], false)) :=
  ⟨twoContention_backoffClass,
    c1_retry_backoff twoContentionThenSuccess twoContention_backoffClass⟩

/-- C1 counterexample: on a run of lost-connection failures, attempts 2 and 3
each occur after a retried failure of the previous attempt, yet no delay at all
is slept, contradicting the claimed backoff formula for every retryable
failure. -/
theorem c1_counterexample :
    (load_csv_file_direct connLost).1 =
      [.attempt false, .attempt false, .attempt false] ∧
    (load_csv_file_direct connLost).2 = false ∧
    ¬ claimedBackoffPattern (load_csv_file_direct connLost).1 := by
  refine ⟨by decide, by decide, ?_⟩
  intro hpat
  simp only [claimedBackoffPattern] at hpat
  exact absurd hpat (by decide)

/-- C2 (amended): a failure of the class the spec calls permanent
(`SourceUnreadable`, `SchemaViolation`) reaches the generic `except Exception`
handler of `load_csv_file_direct` and is retried exactly like a transient one:
up to 3 attempts with backoff delays of 100 ms and 200 ms, the task being
recorded as failed only after the third failure. -/
theorem c2_permanent_failures_retried (msg : String) :
    load_csv_file_direct (fun _ => AttemptResult.failure (PgErr.otherException msg)) =
      ([.attempt false, .sleep 100, .attempt false, .sleep 200, .attempt false], false) := by
  rfl

/-- C2 counterexample: an unreadable-partition failure on every attempt leads
to 3 attempts and two backoff sleeps, not to an immediate un-retried failure
after the first attempt. -/
theorem c2_counterexample :
    numAttempts (load_csv_file_direct
      (fun _ => AttemptResult.failure (PgErr.otherException "could not open partition file"))).1
      = 3 ∧
    sleeps (load_csv_file_direct
      (fun _ => AttemptResult.failure (PgErr.otherException "could not open partition file"))).1
      = [100, 200] := by
  decide

/-- The in-memory load state of `load_all_numbers.py`: the JSON dictionary
persisted in `.load_state.json` (lines 360-388).  `loaded_files` and
`failed_files` hold task ids (file base names); the timestamps are epoch
seconds, modelled as naturals. -/
structure LoadState where
  loaded_files : List String
  failed_files : List String
  start_time : Option Nat
  last_update : Option Nat
deriving DecidableEq

/-- The fresh dictionary `load_state` builds when nothing valid is persisted
(lines 373-378). -/
def freshState : LoadState :=
  { loaded_files := [], failed_files := [], start_time := none, last_update := none }

/-- Control flow of `load_state` (lines 364-378).  The outcome of reading and
parsing the checkpoint file is abstracted as the argument: `none` when the file
does not exist, `some none` when it exists but `open` or `json.load` raises,
`some (some st)` when it parses to `st`.  Only a successful parse returns the
file's contents; both other paths fall through to the fresh dictionary. -/
def load_state : Option (Option LoadState) → LoadState
  | some (some st) => st
  | some none => freshState
  | none => freshState

/-- Success bookkeeping of `load_all_files` (lines 477-480): the file name is
appended to `loaded_files` and, if present, removed — Python `list.remove`,
first occurrence — from `failed_files`. -/
def recordSuccess (st : LoadState) (f : String) : LoadState :=
  { st with
    loaded_files := st.loaded_files ++ [f],
    failed_files :=
      if f ∈ st.failed_files then st.failed_files.erase f else st.failed_files }

/-- Failure bookkeeping of `load_all_files` (lines 494-495, likewise 519-520):
the file name is appended to `failed_files` unless already present. -/
def recordFailure (st : LoadState) (f : String) : LoadState :=
  if f ∈ st.failed_files then st
  else { st with failed_files := st.failed_files ++ [f] }

/-- The checkpoint invariant: no task id is in both `loaded_files` and
`failed_files`. -/
def disjointSets (st : LoadState) : Prop :=
  ∀ x ∈ st.loaded_files, x ∉ st.failed_files

instance (st : LoadState) : Decidable (disjointSets st) := by
  unfold disjointSets
  infer_instance

/-- Characters after the last slash of a path. -/
def afterLastSlash (s : List Char) : List Char :=
  (s.reverse.takeWhile (fun c => c != '/')).reverse

/-- Base name of a path, Python `Path(p).name` for slash-separated paths. -/
def baseName (p : String) : String :=
  String.mk (afterLastSlash p.toList)

/-- Residual computation of `load_all_files` (line 411): keep the CSV files
whose base name is not among the already loaded ones.  `failed_files` is not
consulted, so previously failed tasks stay in the residual set. -/
def files_to_load (csv_files : List String) (loaded_files : List String) : List String :=
  csv_files.filter (fun f => !(loaded_files.contains (baseName f)))

/-- C4: recording the outcome of a residual task (one not already in
`loaded_files`, as every dispatched task is) preserves the checkpoint
invariants: `loaded_files` and `failed_files` stay disjoint and duplicate-free,
an id already in `loaded_files` is never removed by either update, and a task
that previously failed and now succeeds is removed from `failed_files` and
added to `loaded_files`. -/
theorem c4_checkpoint_invariants (st : LoadState) (f : String)
    (hdisj : disjointSets st) (hres : f ∉ st.loaded_files)
    (hnd : st.failed_files.Nodup) :
    disjointSets (recordSuccess st f) ∧
    disjointSets (recordFailure st f) ∧
    (∀ x ∈ st.loaded_files, x ∈ (recordSuccess st f).loaded_files ∧
      x ∈ (recordFailure st f).loaded_files) ∧
    (recordSuccess st f).failed_files.Nodup ∧
    (recordFailure st f).failed_files.Nodup ∧
    (f ∈ st.failed_files →
      f ∉ (recordSuccess st f).failed_files ∧ f ∈ (recordSuccess st f).loaded_files) := by
  refine ⟨?_, ?_, ?_, ?_, ?_, ?_⟩
  · intro x hx
    simp only [recordSuccess, List.mem_append, List.mem_singleton] at hx
    rcases hx with hx | rfl
    · have hxf := hdisj x hx
      by_cases hf : f ∈ st.failed_files
      · simp only [recordSuccess, hf, if_true]
        exact fun hc => hxf (List.erase_subset _ _ hc)
      · simpa [recordSuccess, hf] using hxf
    · by_cases hf : x ∈ st.failed_files
      · simp only [recordSuccess, hf, if_true]
        intro hc
        exact absurd rfl ((hnd.mem_erase_iff.mp hc).1)
      · simp [recordSuccess, hf]
  · intro x hx
    by_cases hf : f ∈ st.failed_files
    · simp only [recordFailure, hf, if_true] at hx ⊢
      exact hdisj x hx
    · simp only [recordFailure, hf, if_false] at hx ⊢
      simp only [List.mem_append, List.mem_singleton]
      rintro (hc | rfl)
      · exact hdisj x hx hc
      · exact hres hx
  · intro x hx
    constructor
    · simp [recordSuccess, hx]
    · by_cases hf : f ∈ st.failed_files <;> simp [recordFailure, hf, hx]
  · by_cases hf : f ∈ st.failed_files
    · simpa [recordSuccess, hf] using hnd.erase f
    · simpa [recordSuccess, hf] using hnd
  · by_cases hf : f ∈ st.failed_files
    · simpa [recordFailure, hf] using hnd
    · simp [recordFailure, hf, List.nodup_append, hnd]
  · intro hf
    constructor
    · simp only [recordSuccess, hf, if_true]
      intro hc
      exact absurd rfl ((hnd.mem_erase_iff.mp hc).1)
    · simp [recordSuccess]

theorem c4_checkpoint_invariants_witness :
    (disjointSets ⟨["a"], ["b"], none, none⟩ ∧ "b" ∉ (["a"] : List String) ∧
      (["b"] : List String).Nodup) ∧
    (disjointSets (recordSuccess ⟨["a"], ["b"], none, none⟩ "b") ∧
      "b" ∈ (recordSuccess ⟨["a"], ["b"], none, none⟩ "b").loaded_files) :=
  ⟨⟨by decide, by decide, by decide⟩,
    ⟨(c4_checkpoint_invariants ⟨["a"], ["b"], none, none⟩ "b" (by decide) (by decide)
        (by decide)).1,
      ((c4_checkpoint_invariants ⟨["a"], ["b"], none, none⟩ "b" (by decide) (by decide)
        (by decide)).2.2.2.2.2 (by decide)).2⟩⟩

/-- Aggregated result of one `load_all_files` run: the final main table, the
final load state, and the `newly_loaded` / `newly_failed` counters (lines
447-448, 474-521). -/
structure RunResult where
  store : List Row
  state : LoadState
  newly_loaded : Nat
  newly_failed : Nat
deriving DecidableEq

def bumpLoaded (r : RunResult) : RunResult :=
  { r with newly_loaded := r.newly_loaded + 1 }

def bumpFailed (r : RunResult) : RunResult :=
  { r with newly_failed := r.newly_failed + 1 }

/-- The completion loop of `load_all_files` (lines 457-524), sequentialised:
every residual task is driven to a terminal state; a task whose load returned
`True` merges its rows into the table and is recorded as loaded, a task whose
load returned `False` (or raised) leaves the table untouched — its transaction
never committed — and is recorded as failed; one task's outcome never stops the
processing of the remaining tasks.  `records f` are the rows of file `f` and
`ok f` the eventual boolean result of `load_csv_file` for it. -/
def runTasks (records : String → List Row) (ok : String → Bool)
    (store : List Row) (st : LoadState) : List String → RunResult
  | [] => ⟨store, st, 0, 0⟩
  | f :: rest =>
    if ok f then
      bumpLoaded (runTasks records ok (mergeInto store (records f)).1
        (recordSuccess st (baseName f)) rest)
    else
      bumpFailed (runTasks records ok store (recordFailure st (baseName f)) rest)

/-- One `load_all_files` run (lines 395-524): compute the residual set from the
persisted state, then execute it. -/
def load_all_files (records : String → List Row) (ok : String → Bool)
    (store : List Row) (st : LoadState) (csv_files : List String) : RunResult :=
  runTasks records ok store st (files_to_load csv_files st.loaded_files)

/-- The file loop of `load_all_to_db.py` `main` (lines 81-87): files are loaded
in order inside a `try`, and the first `CalledProcessError` makes `main` call
`sys.exit(1)`, abandoning every remaining file.  Returns how many files were
attempted and whether the loop ran to completion. -/
def load_all_to_db_main (ok : String → Bool) : List String → Nat × Bool
  | [] => (0, true)
  | f :: rest =>
    if ok f then
      ((load_all_to_db_main ok rest).1 + 1, (load_all_to_db_main ok rest).2)
    else (1, false)

theorem runTasks_failed_mem (records : String → List Row) (ok : String → Bool) :
    ∀ (tasks : List String) (store : List Row) (st : LoadState) (x : String),
      x ∈ st.failed_files → (∀ g ∈ tasks, baseName g ≠ x) →
      x ∈ (runTasks records ok store st tasks).state.failed_files := by
  intro tasks
  induction tasks with
  | nil => intro store st x hx _; simpa [runTasks] using hx
  | cons f rest ih =>
    intro store st x hx hne
    have hfx : baseName f ≠ x := hne f (List.mem_cons_self f rest)
    have hne' : ∀ g ∈ rest, baseName g ≠ x := fun g hg => hne g (List.mem_cons_of_mem f hg)
    by_cases hok : ok f = true
    · have hx' : x ∈ (recordSuccess st (baseName f)).failed_files := by
        by_cases hf : baseName f ∈ st.failed_files
        · simp only [recordSuccess, hf, if_true]
          exact (List.mem_erase_of_ne (fun h => hfx h.symm)).mpr hx
        · simpa [recordSuccess, hf] using hx
      simpa [runTasks, hok, bumpLoaded] using ih _ _ x hx' hne'
    · have hx' : x ∈ (recordFailure st (baseName f)).failed_files := by
        by_cases hf : baseName f ∈ st.failed_files
        · simpa [recordFailure, hf] using hx
        · simp [recordFailure, hf, hx]
      simpa [runTasks, hok, bumpFailed] using ih _ _ x hx' hne'

theorem runTasks_counts (records : String → List Row) (ok : String → Bool) :
    ∀ (tasks : List String) (store : List Row) (st : LoadState),
      (runTasks records ok store st tasks).newly_loaded =
        (tasks.filter (fun f => ok f)).length ∧
      (runTasks records ok store st tasks).newly_failed =
        (tasks.filter (fun f => !(ok f))).length := by
  intro tasks
  induction tasks with
  | nil => intro store st; simp [runTasks]
  | cons f rest ih =>
    intro store st
    by_cases hok : ok f = true
    · simpa [runTasks, hok, bumpLoaded, List.filter_cons] using
        ih (mergeInto store (records f)).1 (recordSuccess st (baseName f))
    · simpa [runTasks, hok, bumpFailed, List.filter_cons] using
        ih store (recordFailure st (baseName f))

theorem length_filter_split (p : String → Bool) :
    ∀ l : List String, (l.filter p).length + (l.filter (fun f => !(p f))).length = l.length := by
  intro l
  induction l with
  | nil => simp
  | cons a t ih =>
    by_cases h : p a = true <;> simp [List.filter_cons, h] <;> omega

/-- C9 (amended): in the parallel loader (`load_all_files` of
`load_all_numbers.py`) errors are contained at task granularity: whatever the
per-task outcomes, every residual task is processed to a terminal state, the
run-level counters count exactly the succeeded and the failed tasks, and every
failed task's id ends up recorded in `failed_files`.  The sequential driver
`load_all_to_db.py` instead aborts the whole run on its first failing task
(see the counterexample). -/
theorem c9_failure_isolation (records : String → List Row) (ok : String → Bool)
    (store : List Row) (st : LoadState) (tasks : List String)
    (hnd : (tasks.map baseName).Nodup) :
    (runTasks records ok store st tasks).newly_loaded +
      (runTasks records ok store st tasks).newly_failed = tasks.length ∧
    (runTasks records ok store st tasks).newly_loaded =
      (tasks.filter (fun f => ok f)).length ∧
    (runTasks records ok store st tasks).newly_failed =
      (tasks.filter (fun f => !(ok f))).length ∧
    (∀ f ∈ tasks, ok f = false →
      baseName f ∈ (runTasks records ok store st tasks).state.failed_files) := by
  obtain ⟨hl, hf⟩ := runTasks_counts records ok tasks store st
  refine ⟨by rw [hl, hf]; exact length_filter_split ok tasks, hl, hf, ?_⟩
  clear hl hf
  induction tasks generalizing store st with
  | nil => intro f hf; simp at hf
  | cons g rest ih =>
    intro f hmem hnok
    simp only [List.map_cons, List.nodup_cons] at hnd
    rcases List.mem_cons.mp hmem with rfl | hr
    · rw [Bool.eq_false_iff] at hnok
      have hin : baseName f ∈ (recordFailure st (baseName f)).failed_files := by
        by_cases hfm : baseName f ∈ st.failed_files
        · simp [recordFailure, hfm]
        · simp [recordFailure, hfm]
      have hne : ∀ g' ∈ rest, baseName g' ≠ baseName f := by
        intro g' hg' he
        exact hnd.1 (he ▸ List.mem_map_of_mem baseName hg')
      simp only [runTasks, hnok, if_neg, Bool.false_eq_true, not_false_iff, bumpFailed]
      exact runTasks_failed_mem records ok rest store (recordFailure st (baseName f))
        (baseName f) hin hne
    · by_cases hok : ok g = true
      · simpa [runTasks, hok, bumpLoaded] using
          ih (mergeInto store (records g)).1 (recordSuccess st (baseName g)) hnd.2 f hr hnok
      · simpa [runTasks, hok, bumpFailed] using
          ih store (recordFailure st (baseName g)) hnd.2 f hr hnok

theorem c9_failure_isolation_witness :
    ((["d/a.csv", "d/b.csv"].map baseName).Nodup ∧
      ("d/b.csv" ∈ ["d/a.csv", "d/b.csv"] ∧ (fun f => f == "d/a.csv") "d/b.csv" = false)) ∧
    baseName "d/b.csv" ∈
      (runTasks (fun _ => []) (fun f => f == "d/a.csv") [] freshState
        ["d/a.csv", "d/b.csv"]).state.failed_files :=
  ⟨⟨by decide, by decide, by decide⟩,
    (c9_failure_isolation (fun _ => []) (fun f => f == "d/a.csv") [] freshState
      ["d/a.csv", "d/b.csv"] (by decide)).2.2.2 "d/b.csv" (by decide) (by decide)⟩

/-- C9 counterexample: in the sequential driver, a run over two files whose
first file fails attempts only that file and aborts, so the sibling task —
which would succeed on its own — is never dispatched. -/
theorem c9_counterexample :
    (load_all_to_db_main (fun f => f == "precomp_051.csv")
      ["precomp_050.csv", "precomp_051.csv"]).1 = 1 ∧
    (load_all_to_db_main (fun f => f == "precomp_051.csv")
      ["precomp_050.csv", "precomp_051.csv"]).2 = false ∧
    (load_all_to_db_main (fun f => f == "precomp_051.csv") ["precomp_051.csv"]).2 = true := by
  refine ⟨by decide, by decide, by decide⟩

/-- C6 (amended): recording the same successful outcome twice is not a no-op on
the persisted representation — the success path appends unconditionally, so the
second recording adds a duplicate id to `loaded_files` — but it is idempotent
up to the set view: membership of `loaded_files` and the entire `failed_files`
list are unchanged by the second recording. -/
theorem c6_record_success_set_idempotent (st : LoadState) (f : String)
    (hnd : st.failed_files.Nodup) :
    (recordSuccess (recordSuccess st f) f).loaded_files =
      (recordSuccess st f).loaded_files ++ [f] ∧
    (recordSuccess (recordSuccess st f) f).failed_files =
      (recordSuccess st f).failed_files ∧
    (∀ x, x ∈ (recordSuccess (recordSuccess st f) f).loaded_files ↔
      x ∈ (recordSuccess st f).loaded_files) := by
  have hnotmem : f ∉ (recordSuccess st f).failed_files := by
    by_cases hf : f ∈ st.failed_files
    · simp only [recordSuccess, hf, if_true]
      intro hc
      exact absurd rfl ((hnd.mem_erase_iff.mp hc).1)
    · simp [recordSuccess, hf]
  refine ⟨rfl, ?_, ?_⟩
  · have hdef : (recordSuccess (recordSuccess st f) f).failed_files =
        if f ∈ (recordSuccess st f).failed_files then
          (recordSuccess st f).failed_files.erase f
        else (recordSuccess st f).failed_files := rfl
    rw [hdef, if_neg hnotmem]
  · intro x
    simp only [recordSuccess, List.mem_append, List.mem_singleton]
    tauto

theorem c6_record_success_set_idempotent_witness :
    ((["t1"] : List String).Nodup) ∧
    (recordSuccess (recordSuccess ⟨[], ["t1"], none, none⟩ "t1") "t1").failed_files =
      (recordSuccess ⟨[], ["t1"], none, none⟩ "t1").failed_files :=
  ⟨by decide,
    (c6_record_success_set_idempotent ⟨[], ["t1"], none, none⟩ "t1" (by decide)).2.1⟩

/-- C6 counterexample: recording the same successful outcome a second time does
change the checkpoint state — `loaded_files` gains a duplicate entry — so the
second recording is not a no-op leaving the state exactly as after the first. -/
theorem c6_counterexample :
    recordSuccess (recordSuccess freshState "t1") "t1" ≠ recordSuccess freshState "t1" ∧
    (recordSuccess (recordSuccess freshState "t1") "t1").loaded_files = ["t1", "t1"] := by
  refine ⟨by decide, by decide⟩

/-- C10: a checkpoint file that exists but cannot be read or parsed yields the
very same fresh state as a missing file — empty completed and failed sets and
no timestamps — with no error raised, so every task re-enters the residual
set. -/
theorem c10_corrupt_checkpoint (csv_files : List String) :
    load_state (some none) = load_state none ∧
    load_state (some none) = freshState ∧
    freshState.loaded_files = [] ∧ freshState.failed_files = [] ∧
    freshState.start_time = none ∧ freshState.last_update = none ∧
    files_to_load csv_files (load_state (some none)).loaded_files = csv_files := by
  refine ⟨rfl, rfl, rfl, rfl, rfl, rfl, ?_⟩
  simp [files_to_load, load_state, freshState]

theorem contains_eq_decide_mem (l : List String) (x : String) :
    l.contains x = decide (x ∈ l) := by
  simp [List.contains]

theorem filter_contains_length :
    ∀ (names loaded : List String), names.Nodup → loaded.Nodup →
      (∀ x ∈ loaded, x ∈ names) →
      (names.filter (fun x => loaded.contains x)).length = loaded.length := by
  intro names
  induction names with
  | nil =>
    intro loaded _ _ hsub
    have hnil : loaded = [] :=
      List.eq_nil_iff_forall_not_mem.mpr (fun x hx => by simpa using hsub x hx)
    simp [hnil]
  | cons n rest ih =>
    intro loaded hnames hloaded hsub
    simp only [List.nodup_cons] at hnames
    have hcongr : ∀ x ∈ rest, (loaded.contains x) = ((loaded.erase n).contains x) := by
      intro x hx
      have hxn : x ≠ n := fun h => hnames.1 (h ▸ hx)
      rw [contains_eq_decide_mem, contains_eq_decide_mem]
      by_cases hxl : x ∈ loaded
      · simp [hxl, (List.mem_erase_of_ne hxn).mpr hxl]
      · have hxe : x ∉ loaded.erase n := fun hc => hxl (List.erase_subset _ _ hc)
        simp [hxl, hxe]
    by_cases hn : n ∈ loaded
    · rw [List.filter_cons, if_pos (by rw [contains_eq_decide_mem]; exact decide_eq_true hn)]
      rw [List.filter_congr hcongr]
      have hlen := ih (loaded.erase n) hnames.2 (hloaded.erase n) ?_
      · rw [List.length_cons, hlen, List.length_erase_of_mem hn]
        have : 1 ≤ loaded.length := List.length_pos.mpr (fun h => by simp [h] at hn)
        omega
      · intro x hx
        have hxl : x ∈ loaded := List.erase_subset _ _ hx
        have hxn : x ≠ n := (hloaded.mem_erase_iff.mp hx).1
        rcases List.mem_cons.mp (hsub x hxl) with h | h
        · exact absurd h hxn
        · exact h
    · rw [List.filter_cons, if_neg (by rw [contains_eq_decide_mem]; simp [hn])]
      apply ih loaded hnames.2 hloaded
      intro x hx
      rcases List.mem_cons.mp (hsub x hx) with h | h
      · exact absurd (h ▸ hx) hn
      · exact h

/-- C5: the residual set computed at startup is exactly the tasks whose base
name is not among the completed ones — tasks recorded as failed are included;
for M tasks with distinct names of which the N recorded as loaded all come
from the task list, the residual has exactly M − N tasks; and when every task
is already recorded as loaded, the residual is empty, so a rerun over the
unchanged input dispatches no task, inserts no row and leaves the store, the
state and both counters untouched. -/
theorem c5_residual (csv_files loaded : List String) (records : String → List Row)
    (ok : String → Bool) (store : List Row) (st : LoadState) :
    (∀ f, f ∈ files_to_load csv_files loaded ↔ (f ∈ csv_files ∧ baseName f ∉ loaded)) ∧
    ((csv_files.map baseName).Nodup → loaded.Nodup →
      (∀ x ∈ loaded, x ∈ csv_files.map baseName) →
      (files_to_load csv_files loaded).length = csv_files.length - loaded.length) ∧
    ((∀ f ∈ csv_files, baseName f ∈ st.loaded_files) →
      files_to_load csv_files st.loaded_files = [] ∧
      load_all_files records ok store st csv_files = ⟨store, st, 0, 0⟩) := by
  refine ⟨?_, ?_, ?_⟩
  · intro f
    simp [files_to_load, List.mem_filter, contains_eq_decide_mem]
  · intro hnames hloaded hsub
    have hsplit := length_filter_split (fun f => loaded.contains (baseName f)) csv_files
    have hmap : ((csv_files.map baseName).filter (fun x => loaded.contains x)).length =
        (csv_files.filter (fun f => loaded.contains (baseName f))).length := by
      rw [List.filter_map, List.length_map]
      rfl
    have hcount := filter_contains_length (csv_files.map baseName) loaded hnames hloaded hsub
    have hdef : (files_to_load csv_files loaded).length =
        (csv_files.filter (fun f => !(loaded.contains (baseName f)))).length := rfl
    rw [hdef]
    rw [← hmap, hcount] at hsplit
    omega
  · intro hall
    have hres : files_to_load csv_files st.loaded_files = [] := by
      apply List.filter_eq_nil_iff.mpr
      intro f hf
      simp [contains_eq_decide_mem, hall f hf]
    exact ⟨hres, by simp [load_all_files, hres, runTasks]⟩

theorem c5_residual_witness :
    ((["d/a.csv", "d/b.csv"].map baseName).Nodup ∧ (["a.csv"] : List String).Nodup ∧
      (∀ x ∈ (["a.csv"] : List String), x ∈ ["d/a.csv", "d/b.csv"].map baseName)) ∧
    (files_to_load ["d/a.csv", "d/b.csv"] ["a.csv"]).length = 2 - 1 :=
  ⟨⟨by decide, by decide, by decide⟩,
    (c5_residual ["d/a.csv", "d/b.csv"] ["a.csv"] (fun _ => []) (fun _ => true) []
      freshState).2.1 (by decide) (by decide) (by decide)⟩

def lbrace : Char := Char.ofNat 123

def rbrace : Char := Char.ofNat 125

def digitChar (d : Nat) : Char := Char.ofNat (48 + d)

def natCharsAux : Nat → Nat → List Char
  | 0, _ => []
  | fuel + 1, n =>
    if n < 10 then [digitChar n]
    else natCharsAux fuel (n / 10) ++ [digitChar (n % 10)]

/-- Decimal digits of a natural, as JSON would print it. -/
def natChars (n : Nat) : List Char := natCharsAux (n + 1) n

def quoteChars (s : String) : List Char := '"' :: s.toList ++ ['"']

def commaSep : List (List Char) → List Char
  | [] => []
  | [x] => x
  | x :: y :: rest => x ++ ", ".toList ++ commaSep (y :: rest)

def jsonStrListChars (xs : List String) : List Char :=
  '[' :: commaSep (xs.map quoteChars) ++ [']']

def jsonOptNatChars : Option Nat → List Char
  | none => "null".toList
  | some n => natChars n

/-- The JSON text `json.dump` writes for a load state (line 386), as a
character list: one object with the four keys in insertion order. -/
def serializeStateChars (st : LoadState) : List Char :=
  lbrace :: ("\"loaded_files\": ".toList ++ jsonStrListChars st.loaded_files ++
    ", \"failed_files\": ".toList ++ jsonStrListChars st.failed_files ++
    ", \"start_time\": ".toList ++ jsonOptNatChars st.start_time ++
    ", \"last_update\": ".toList ++ jsonOptNatChars st.last_update) ++ [rbrace]

def serializeState (st : LoadState) : String := String.mk (serializeStateChars st)

/-- File-system operations: truncating open (Python `open(path, 'w')`), a
whole-content write, and an atomic rename. -/
inductive FsOp
  | truncate (path : String)
  | writeAll (path : String) (content : String)
  | rename (src dst : String)
deriving DecidableEq

/-- A file system: map from path to contents, `none` when the file is absent. -/
def Fs := String → Option String

def applyOp (fs : Fs) : FsOp → Fs
  | .truncate p => fun q => if q = p then some "" else fs q
  | .writeAll p c => fun q => if q = p then some c else fs q
  | .rename src dst => fun q =>
      if q = dst then fs src else if q = src then none else fs q

def applyOps (fs : Fs) (ops : List FsOp) : Fs := ops.foldl applyOp fs

/-- Path of the state file, `get_state_file` (lines 360-362). -/
def state_file (dir : String) : String := dir ++ "/.load_state.json"

/-- The file-system effect of `save_state` (lines 380-388): set `last_update`
to the current time, then `open(state_file, 'w')` — which truncates the file in
place — and `json.dump` the state into it.  The dump is modelled as a single
whole-content write, which is generous to the code; even so the truncated
intermediate file is readable.  No temporary file and no rename occur. -/
def save_state_ops (dir : String) (st : LoadState) (now : Nat) : List FsOp :=
  [FsOp.truncate (state_file dir),
   FsOp.writeAll (state_file dir) (serializeState { st with last_update := some now })]

/-- What a reader sees at path `p` when the process is interrupted after the
first `k` operations of `ops`. -/
def observeDuring (fs : Fs) (ops : List FsOp) (k : Nat) (p : String) : Option String :=
  applyOps fs (ops.take k) p

theorem serializeState_ne_empty (st : LoadState) : serializeState st ≠ "" := by
  intro h
  have hd := congrArg String.data h
  simp only [serializeState, serializeStateChars] at hd
  exact List.cons_ne_nil _ _ hd

/-- C7 (amended): `save_state` persists the checkpoint by truncating the state
file in place and rewriting it — not by writing a new file and renaming it over
the old one — so a reader between the truncation and the write observes an
empty file, which is the serialization of no state; an interruption mid-flush
therefore can leave a half-written checkpoint readable (which `load_state` then
treats as a fresh start). -/
theorem c7_flush_not_atomic (dir : String) (st : LoadState) (now : Nat) (fs : Fs) :
    (∀ op ∈ save_state_ops dir st now, ∀ src dst, op ≠ FsOp.rename src dst) ∧
    observeDuring fs (save_state_ops dir st now) 1 (state_file dir) = some "" ∧
    (∀ st' : LoadState, serializeState st' ≠ "") ∧
    observeDuring fs (save_state_ops dir st now) 2 (state_file dir) =
      some (serializeState { st with last_update := some now }) := by
  refine ⟨?_, ?_, serializeState_ne_empty, ?_⟩
  · intro op hop src dst
    simp only [save_state_ops, List.mem_cons, List.mem_singleton] at hop
    rcases hop with rfl | rfl | h
    · exact fun h => FsOp.noConfusion h
    · exact fun h => FsOp.noConfusion h
    · simp at h
  · simp [observeDuring, save_state_ops, applyOps, applyOp]
  · simp [observeDuring, save_state_ops, applyOps, applyOp, List.take]

/-- C7 counterexample: with a checkpoint already persisted, a reader that looks
at the state file between the truncation and the rewrite of a flush observes an
empty file — neither the old checkpoint contents nor the new ones — i.e. a
half-written checkpoint is readable mid-flush. -/
theorem c7_counterexample :
    observeDuring
        (fun q => if q = state_file "precomp_data" then
          some (serializeState ⟨["a.csv"], [], some 1, some 2⟩) else none)
        (save_state_ops "precomp_data" ⟨["a.csv", "b.csv"], [], some 1, some 2⟩ 3) 1
        (state_file "precomp_data") = some "" ∧
    some "" ≠ some (serializeState ⟨["a.csv"], [], some 1, some 2⟩) ∧
    some "" ≠ some (serializeState ⟨["a.csv", "b.csv"], [], some 1, some 3⟩) := by
  refine ⟨by decide, by decide, by decide⟩

/-- Database statements of one attempt of `load_csv_file_direct` inside its
transaction (lines 199-260): clear the staging table, insert the CSV rows into
staging batch by batch, run the dedup merge into the main table, clear staging
again, and finally `conn.commit()`.  `SET lock_timeout` has no data effect and
is omitted. -/
inductive DbOp
  | deleteStaging
  | insertStaging (rows : List Row)
  | mergeMain
  | commitTx
deriving DecidableEq

/-- Contents of the two tables, `md5_phone_map_bin` and `staging_md5`. -/
structure DbState where
  main : List Row
  staging : List Row
deriving DecidableEq

/-- Session-visible effect of one statement. -/
def execStmt (s : DbState) : DbOp → DbState
  | .deleteStaging => { s with staging := [] }
  | .insertStaging rows => { s with staging := s.staging ++ rows }
  | .mergeMain => { s with main := (mergeInto s.main s.staging).1 }
  | .commitTx => s

/-- psycopg2 transaction semantics (autocommit off): statements act on the
connection's session view; `conn.commit()` publishes the session view to the
durable state; an uncommitted session is discarded with the connection. -/
def runStmts : DbState → DbState → List DbOp → DbState × DbState
  | durable, session, [] => (durable, session)
  | durable, session, op :: rest =>
    match op with
    | .commitTx => runStmts session session rest
    | _ => runStmts durable (execStmt session op) rest

/-- The statement sequence of one attempt, the file's rows chunked into
`batches` by the 10000-row batching (lines 204-260). -/
def attemptStmts (batches : List (List Row)) : List DbOp :=
  [DbOp.deleteStaging] ++ batches.map DbOp.insertStaging ++
    [DbOp.mergeMain, DbOp.deleteStaging, DbOp.commitTx]

/-- Durable state after the attempt raises once `k` statements have run: the
session's transaction is abandoned whole. -/
def attemptInterrupted (db : DbState) (batches : List (List Row)) (k : Nat) : DbState :=
  (runStmts db db ((attemptStmts batches).take k)).1

def isCommit : DbOp → Bool
  | .commitTx => true
  | _ => false

theorem runStmts_durable_of_no_commit :
    ∀ (ops : List DbOp) (durable session : DbState),
      DbOp.commitTx ∉ ops → (runStmts durable session ops).1 = durable := by
  intro ops
  induction ops with
  | nil => intro d s _; rfl
  | cons op rest ih =>
    intro d s hnc
    cases op with
    | commitTx => exact absurd (List.mem_cons_self _ _) hnc
    | deleteStaging =>
      exact ih d _ (fun h => hnc (List.mem_cons_of_mem _ h))
    | insertStaging rows =>
      exact ih d _ (fun h => hnc (List.mem_cons_of_mem _ h))
    | mergeMain =>
      exact ih d _ (fun h => hnc (List.mem_cons_of_mem _ h))

theorem take_append_le {α : Type} :
    ∀ (k : Nat) (l1 l2 : List α), k ≤ l1.length → (l1 ++ l2).take k = l1.take k := by
  intro k
  induction k with
  | zero => intro l1 l2 _; simp
  | succ n ih =>
    intro l1 l2 hk
    cases l1 with
    | nil => simp at hk
    | cons a t =>
      simp only [List.cons_append, List.take_succ_cons]
      rw [ih t l2 (by simpa using hk)]

theorem attemptStmts_eq (batches : List (List Row)) :
    attemptStmts batches =
      (DbOp.deleteStaging :: (batches.map DbOp.insertStaging ++
        [DbOp.mergeMain, DbOp.deleteStaging])) ++ [DbOp.commitTx] := by
  simp [attemptStmts]

theorem commit_not_mem_front (batches : List (List Row)) :
    DbOp.commitTx ∉ DbOp.deleteStaging :: (batches.map DbOp.insertStaging ++
      [DbOp.mergeMain, DbOp.deleteStaging]) := by
  intro h
  rcases List.mem_cons.mp h with h | h
  · exact DbOp.noConfusion h
  · rcases List.mem_append.mp h with h | h
    · rcases List.mem_map.mp h with ⟨rows, _, h⟩
      exact DbOp.noConfusion h
    · rcases List.mem_cons.mp h with h | h
      · exact DbOp.noConfusion h
      · rcases List.mem_cons.mp h with h | h
        · exact DbOp.noConfusion h
        · simp at h

theorem runStmts_inserts :
    ∀ (batches : List (List Row)) (rest : List DbOp) (d s : DbState),
      runStmts d s (batches.map DbOp.insertStaging ++ rest) =
        runStmts d { s with staging := s.staging ++ batches.flatten } rest := by
  intro batches
  induction batches with
  | nil => intro rest d s; simp
  | cons b bs ih =>
    intro rest d s
    simp only [List.map_cons, List.cons_append, runStmts, execStmt, List.append_eq]
    rw [ih]
    simp [List.append_assoc]

/-- C8: one attempt commits all of its staging and main-table mutations as a
single transaction, with the commit as the very last statement and no other
commit anywhere; if the attempt fails at any point before the end, the durable
state — both the main table and the staging table — is exactly as before the
attempt (no partial merge survives), and a failed task is never credited in
`loaded_files`, so it stays in the residual set of the next run.  An
uninterrupted attempt commits exactly the dedup merge of the file's rows and
leaves staging clear. -/
theorem c8_single_transaction (db : DbState) (batches : List (List Row)) (k : Nat)
    (hk : k < (attemptStmts batches).length) :
    ((attemptStmts batches).countP isCommit = 1 ∧
      (attemptStmts batches).getLast? = some DbOp.commitTx) ∧
    attemptInterrupted db batches k = db ∧
    (runStmts db db (attemptStmts batches)).1 =
      ⟨(mergeInto db.main batches.flatten).1, []⟩ ∧
    (∀ st x, (recordFailure st x).loaded_files = st.loaded_files) := by
  refine ⟨⟨?_, ?_⟩, ?_, ?_, ?_⟩
  · rw [attemptStmts_eq, List.countP_append]
    have h0 : (DbOp.deleteStaging :: (batches.map DbOp.insertStaging ++
        [DbOp.mergeMain, DbOp.deleteStaging])).countP isCommit = 0 := by
      apply List.countP_eq_zero.mpr
      intro op hop hio
      cases op <;> simp [isCommit] at hio
      exact commit_not_mem_front batches hop
    rw [h0]
    rfl
  · rw [attemptStmts_eq]
    exact List.getLast?_concat _
  · have hle : k ≤ (DbOp.deleteStaging :: (batches.map DbOp.insertStaging ++
        [DbOp.mergeMain, DbOp.deleteStaging])).length := by
      have := congrArg List.length (attemptStmts_eq batches)
      rw [List.length_append] at this
      simp only [List.length_singleton] at this
      omega
    have htake : (attemptStmts batches).take k =
        (DbOp.deleteStaging :: (batches.map DbOp.insertStaging ++
          [DbOp.mergeMain, DbOp.deleteStaging])).take k := by
      rw [attemptStmts_eq]
      exact take_append_le k _ _ hle
    apply runStmts_durable_of_no_commit
    rw [htake]
    intro hmem
    exact commit_not_mem_front batches (List.take_subset k _ hmem)
  · simp only [attemptStmts, List.singleton_append, runStmts, execStmt, List.append_eq,
      List.nil_append]
    rw [runStmts_inserts]
    simp [runStmts, execStmt]
  · intro st x
    by_cases h : x ∈ st.failed_files <;> simp [recordFailure, h]

theorem c8_single_transaction_witness :
    (3 < (attemptStmts [[("k", "v2"), ("k2", "p")]]).length) ∧
    attemptInterrupted ⟨[("k", "v")], [("s", "t")]⟩ [[("k", "v2"), ("k2", "p")]] 3 =
      ⟨[("k", "v")], [("s", "t")]⟩ :=
  ⟨by decide,
    (c8_single_transaction ⟨[("k", "v")], [("s", "t")]⟩ [[("k", "v2"), ("k2", "p")]] 3
      (by decide)).2.1⟩

end MD5Loader
